import Mathlib

/-!
Verification of core behaviors of a store-and-forward MTA (Postfix snapshot).
Each C source function relevant to the frozen claims is shallowly embedded as
an executable Lean definition; theorems about those definitions settle the
claims.
-/

/-! ## Common helpers -/

/-- Case-insensitive string equality, the shallow embedding of `strcasecmp(a,b) == 0`
(ASCII case folding). -/
def strcaseEq (a b : String) : Bool :=
  a.data.map Char.toLower == b.data.map Char.toLower

/-! ## SMTP address lookup (`smtp/smtp_addr.c`)

`DNS_RR` address records are reduced to the two fields the algorithms read:
the MX preference and the IPv4 address (`s_addr`, a 32-bit value modelled as
`Nat`). MX records keep their preference and host name. A-record resolution
(`smtp_addr_one` / `dns_lookup(T_A)`) is abstracted as a function from host
name to address list; an empty list stands for a host with no usable
A records (those lookups are ignored as long as some host resolves). -/

/-- An address resource record: MX preference plus IPv4 address. -/
structure AddrRR where
  pref : Nat
  ip : Nat
deriving DecidableEq, Repr

/-- An MX resource record: preference plus exchanger host name. -/
structure MxRR where
  pref : Nat
  host : String
deriving DecidableEq, Repr

/-- `dns_rr_sort(mx_names, smtp_compare_mx)`: sort MX records by ascending
preference (a comparison sort over `smtp_compare_mx`, which compares the
`pref` fields). -/
def smtp_sort_mx (mx : List MxRR) : List MxRR :=
  mx.insertionSort (fun a b => a.pref ≤ b.pref)

/-- `smtp_addr_list`: for each MX record (in list order) look up the host's
addresses and append them, each carrying the MX record's preference
(`rr->pref = pref` in `smtp_addr_one`). -/
def smtp_addr_list (lookupA : String → List Nat) (mx : List MxRR) : List AddrRR :=
  mx.flatMap (fun m => (lookupA m.host).map (fun a => ⟨m.pref, a⟩))

/-- `smtp_find_self`: first address record listing one of the local host's own
addresses (`own_inet_addr_list`). -/
def smtp_find_self (selfAddrs : List Nat) (addrList : List AddrRR) : Option AddrRR :=
  addrList.find? (fun r => selfAddrs.contains r.ip)

/-- `smtp_truncate_self`: walk the list and, at the first record whose
preference equals `pref`, free that record and everything after it
(`dns_rr_free(addr)` frees the rest of the chain; `last->next = 0`).
The result is the longest prefix of records with preference different
from `pref`. -/
def smtp_truncate_self (addrList : List AddrRR) (pref : Nat) : List AddrRR :=
  addrList.takeWhile (fun r => r.pref ≠ pref)

/-- `smtp_errno` values relevant to `smtp_domain_addr`. -/
inductive SmtpErr where
  | ok
  | retry
  | fail
deriving DecidableEq, Repr

/-- Result of `smtp_domain_addr`: returned address list, the `smtp_errno`
setting (`none` when the function does not set it on this path), the `why`
text (`none` when not written), and the `*found_myself` output flag. -/
structure DomainAddrOut where
  addrs : List AddrRR
  errno : Option SmtpErr
  why : Option String
  foundMyself : Bool
deriving DecidableEq, Repr

/-- The `DNS_OK` branch of `smtp_domain_addr`: sort the MX records, resolve
addresses, and truncate at self. `selfAddrs` is the local address set,
`bestmxTransport` tells whether `var_bestmx_transp` is a non-empty string. -/
def smtp_domain_addr_dnsok (name : String) (selfAddrs : List Nat)
    (bestmxTransport : Bool) (lookupA : String → List Nat)
    (mxNames : List MxRR) : DomainAddrOut :=
  let mxs := smtp_sort_mx mxNames
  let addrList := smtp_addr_list lookupA mxs
  match addrList with
  | [] => ⟨[], some .retry, none, false⟩
  | first :: _ =>
    let bestPref : Option Nat := mxs.head?.map MxRR.pref
    let bestFound : Option Nat := some first.pref
    match smtp_find_self selfAddrs addrList with
    | none => ⟨addrList, none, none, false⟩
    | some selfRR =>
      match smtp_truncate_self addrList selfRR.pref with
      | [] =>
        if bestPref ≠ bestFound then
          ⟨[], some .retry, some ("unable to find primary relay for " ++ name), true⟩
        else if bestmxTransport then
          ⟨[], some .ok, none, true⟩
        else
          ⟨[], some .fail, some ("mail for " ++ name ++ " loops back to myself"), true⟩
      | tr => ⟨tr, none, none, true⟩

/-! ## Queue file finalization (`global/mail_stream.c`)

`mail_stream_finish_file` is driven by the outcomes of the four system
operations it performs (flush, fchmod 0700, optional fsync, close). Each
outcome is a boolean input (`true` = the call succeeded); the build-time
`HAS_FSYNC` conditional is the `hasFsync` flag. -/

/-- Cleanup status codes used by `mail_stream_finish_file`
(`CLEANUP_STAT_OK` = 0 and `CLEANUP_STAT_WRITE`). -/
inductive CleanupStat where
  | ok
  | write
deriving DecidableEq, Repr

/-- Outcomes of the system calls made by `mail_stream_finish_file`. -/
structure FinishOps where
  flushOk : Bool
  chmodOk : Bool
  fsyncOk : Bool
  closeOk : Bool
deriving DecidableEq, Repr

/-- Observable result of `mail_stream_finish_file`: returned status, whether
the queue file carries the 0700 execute bits afterwards, and whether the
wakeup trigger was sent. -/
structure FinishOut where
  status : CleanupStat
  execBits : Bool
  triggerSent : Bool
deriving DecidableEq, Repr

/-- `mail_stream_finish_file`: `status = 0`; then
`if (vstream_fflush || fchmod(0700) || fsync) status = CLEANUP_STAT_WRITE;`
(with C short-circuit evaluation: `fchmod` runs only after a clean flush,
`fsync` only after a clean `fchmod`); then `if (close) status = WRITE`;
finally the wakeup trigger is sent iff `status == CLEANUP_STAT_OK`.
The execute bits are on the file iff the `fchmod(fd, 0700)` call ran and
succeeded. -/
def mail_stream_finish_file (hasFsync : Bool) (o : FinishOps) : FinishOut :=
  let chmodRan := o.flushOk
  let fsyncRan := hasFsync && o.flushOk && o.chmodOk
  let writeErr1 := !o.flushOk || (chmodRan && !o.chmodOk) || (fsyncRan && !o.fsyncOk)
  let status := if writeErr1 || !o.closeOk then CleanupStat.write else CleanupStat.ok
  ⟨status, chmodRan && o.chmodOk, status = CleanupStat.ok⟩

/-! ## FIFO wakeup trigger (`util/fifo_trigger.c`) -/

/-- Observable result of `fifo_trigger`: the return value and whether the
wakeup bytes were actually written to the FIFO. -/
structure TriggerOut where
  ret : Int
  bytesWritten : Bool
deriving DecidableEq, Repr

/-- `fifo_trigger`: open the FIFO endpoint; on open failure return -1 at once.
Otherwise attempt the write and the close; their failures are only logged
(`msg_warn` under `msg_verbose`) and the function returns 0 regardless. -/
def fifo_trigger (openOk writeOk closeOk : Bool) : TriggerOut :=
  if !openOk then ⟨-1, false⟩
  else ⟨0, writeOk⟩

/-! ## Alias expansion entry checks (`local/alias.c`)

The loop-control head of `deliver_alias`: the function first bumps
`state.level`, returns `NO` when the name equals (case-insensitively) the
alias this expansion branch came from (`state.msg_attr.exp_from`), bounces
the recipient when the bumped nesting level exceeds 100, and otherwise
proceeds to expansion with `exp_from` set to the current name. -/

/-- Outcome of the loop-control head of `deliver_alias`. -/
inductive AliasHeadOut where
  | selfNo
  | loopBounce (diag : String)
  | expand (level : Nat) (expFrom : String)
deriving DecidableEq, Repr

/-- Head of `deliver_alias`: `state.level++`, the `exp_from` self-reference
check (`strcasecmp(state.msg_attr.exp_from, name) == 0` returns `NO`), the
`state.level > 100` loop bounce, then `state.msg_attr.exp_from = name`. -/
def deliver_alias_head (expFrom : Option String) (level : Nat) (name : String) :
    AliasHeadOut :=
  let level1 := level + 1
  if (match expFrom with
      | some e => strcaseEq e name
      | none => false) then
    .selfNo
  else if level1 > 100 then
    .loopBounce ("possible alias database loop for " ++ name)
  else
    .expand level1 name

/-! ## Bounce/defer logfile records (`global/bounce_log.c`)

A logfile is modelled as a list of lines (the byte stream split at
newlines); a read position is a line index. The header constant
`BOUNCE_LOG_STAT_DELETED` is declared in `bounce_log.h`. -/

/-- Modelled from the spec: the tombstone sentinel byte
(`BOUNCE_LOG_STAT_DELETED`, declared in `bounce_log.h`, which is not part
of the extracted sources): "Records may be tombstoned by overwriting the
leading byte with a sentinel". -/
def BOUNCE_LOG_STAT_DELETED : Char := 'D'

/-- The `printable(buf, '?')` sanitizer: replace every character that is not
printable ASCII by `?`. -/
def printableStr (s : String) : String :=
  String.mk (s.data.map (fun c =>
    if 32 ≤ c.toNat ∧ c.toNat < 127 then c else '?'))

/-- A recipient record as produced by `bounce_log_read`: recipient, the
explanatory text, and the line index the record came from (the saved
`bp->offset`). -/
structure BounceRec where
  recipient : String
  text : String
  offset : Nat
deriving DecidableEq, Repr

/-- The `strstr(recipient, ">: ")` search: split a character list at the
first occurrence of `sep`, returning the text before it and the text after
it, or `none` when `sep` does not occur. -/
def splitAtSep (sep : List Char) : List Char → Option (List Char × List Char)
  | [] => none
  | c :: rest =>
    if sep.isPrefixOf (c :: rest) then some ([], (c :: rest).drop sep.length)
    else
      match splitAtSep sep rest with
      | some (pre, post) => some (c :: pre, post)
      | none => none

/-- `ISSPACE`: the white-space characters skipped before the explanatory
text. -/
def isSpaceChar (c : Char) : Bool :=
  c == ' ' || c == '\t' || c == '\n' || c.toNat == 11 || c.toNat == 12 || c == '\r'

/-- One parsing attempt of `bounce_log_read` on one line: `none` when the
line must be skipped (empty line, tombstoned record, or malformed record:
no leading `<`, or no `">: "` separator), otherwise the parsed recipient
(`(MAILER-DAEMON)` when empty) and the text with leading white space
removed. -/
def bounce_log_parse (line : String) : Option (String × String) :=
  if line = "" then none
  else
    let cp := printableStr line
    if cp.data.head? = some BOUNCE_LOG_STAT_DELETED then none
    else if cp.data.head? ≠ some '<' then none
    else
      match splitAtSep ('>' :: ':' :: ' ' :: []) (cp.data.drop 1) with
      | none => none
      | some (recipient, post) =>
        let text := post.dropWhile isSpaceChar
        some (if recipient = [] then "(MAILER-DAEMON)"
              else String.mk recipient, String.mk text)

/-- `bounce_log_read`: starting from line index `pos`, skip empty lines,
tombstoned records and malformed records, and return the first record that
parses, together with its line index (`bp->offset`). -/
def bounce_log_read (lines : List String) (pos : Nat) : Option BounceRec :=
  match h : lines.get? pos with
  | none => none
  | some line =>
    match bounce_log_parse line with
    | some (r, t) => some ⟨r, t, pos⟩
    | none => bounce_log_read lines (pos + 1)
termination_by lines.length - pos
decreasing_by
  have hlt : pos < lines.length := List.get?_eq_some.mp h |>.1
  omega

/-- Tombstone one line: overwrite its leading byte with the sentinel
(`VSTREAM_PUTC(BOUNCE_LOG_STAT_DELETED, bp->fp)` at the record's saved
offset, which is the offset of the line's first byte). -/
def tombstoneLine (line : String) : String :=
  String.mk (BOUNCE_LOG_STAT_DELETED :: line.data.tail)

/-- `bounce_log_delrcpt`: overwrite the leading byte of the record at the
saved line index `off` with the deleted sentinel; the rest of the file and
the stream position are restored. -/
def bounce_log_delrcpt (lines : List String) (off : Nat) : List String :=
  match lines.get? off with
  | none => lines
  | some l => lines.set off (tombstoneLine l)

/-! ## Address mapping (`cleanup/cleanup_map11.c`, `cleanup/cleanup_map1n.c`)

`mail_addr_map` is abstracted as a pure function from the looked-up string
to a result: a non-empty value list, no match (`lookup == 0 && dict_errno
== 0`), or a recoverable lookup error (`lookup == 0 && dict_errno != 0`).
`unquote_822_local` is an abstract string transformer parameter. -/

/-- Result of one `mail_addr_map` call. -/
inductive MapLookup where
  | found (vals : List String)
  | notfound
  | error
deriving DecidableEq, Repr

/-- How `cleanup_map11_external` exited its loop. -/
inductive Map11Exit where
  | selfMatch (savedAddr : String)
  | noMatch
  | lookupError
  | recursionLimit
deriving DecidableEq, Repr

/-- Observable outcome of `cleanup_map11_external`: the final address buffer,
the `cleanup_errs |= CLEANUP_STAT_WRITE` flag, the unreasonable-nesting
warning, the number of `mail_addr_map` calls made, and the loop exit cause.
(A multi-valued result only logs a warning and uses the first value,
`new_addr->argv[0]`, which is what `List.headD` takes here.) -/
structure Map11Out where
  addr : String
  errs : Bool
  warnedNesting : Bool
  nlookups : Nat
  exit : Map11Exit
deriving DecidableEq, Repr

/-- `cleanup_map11_external` with `fuel` loop iterations remaining
(`fuel = MAX_RECURSION - count`): look the address up; replace it by the
first result value and stop when old and new compare equal
case-insensitively; stop on no match; stop, warn and set `cleanup_errs` on
lookup error; when the iterations run out, warn about unreasonable map
nesting. -/
def cleanup_map11_loop (lookup : String → MapLookup) :
    Nat → String → Map11Out
  | 0, addr => ⟨addr, false, true, 0, .recursionLimit⟩
  | fuel + 1, addr =>
    match lookup addr with
    | .found vals =>
      let v := vals.headD addr
      if strcaseEq addr v then
        ⟨v, false, false, 1, .selfMatch addr⟩
      else
        let out := cleanup_map11_loop lookup fuel v
        ⟨out.addr, out.errs, out.warnedNesting, out.nlookups + 1, out.exit⟩
    | .error => ⟨addr, true, false, 1, .lookupError⟩
    | .notfound => ⟨addr, false, false, 1, .noMatch⟩

/-- `cleanup_map11_external` proper: `MAX_RECURSION` is 10. -/
def cleanup_map11_external (lookup : String → MapLookup) (addr : String) : Map11Out :=
  cleanup_map11_loop lookup 10 addr

/-- The claim's notion of the result being a fixed point of the mapping:
looking the result up finds no match, or maps it (case-insensitively) onto
itself. -/
def map11FixpointB (lookup : String → MapLookup) (a : String) : Bool :=
  match lookup a with
  | .notfound => true
  | .found vals => strcaseEq a (vals.headD a)
  | .error => false

/-- Warnings `cleanup_map1n_internal` can log. -/
inductive Map1nWarn where
  | expansionSize
  | nesting
  | lookupProblem
deriving DecidableEq, Repr

/-- Result of the inner (per-slot) loop of `cleanup_map1n_internal`:
the rewritten vector, warnings in order, the `cleanup_errs` write flag,
whether the loop executed `return argv` for the whole function
(self-expansion or lookup error), and the number of `mail_addr_map`
calls made. -/
structure Map1nInnerOut where
  argv : List String
  warns : List Map1nWarn
  errs : Bool
  funcReturn : Bool
  nlookups : Nat
deriving DecidableEq, Repr

/-- Incorporate one lookup result into the vector (the `for (i = 0; ...)`
loop): the first value replaces slot `arg` (`UPDATE(argv->argv[arg], ...)`),
the remaining values are appended, and `expand_to_self` is set when any
unquoted value compares equal (case-insensitively) to the saved left-hand
side. -/
def map1n_incorporate (unquote : String → String) (saved : String) (arg : Nat)
    (vals : List String) (argv : List String) : List String × Bool :=
  match vals with
  | [] => (argv, false)
  | v :: rest =>
    (argv.set arg (unquote v) ++ rest.map unquote,
     vals.any (fun w => strcaseEq saved (unquote w)))

/-- The inner loop of `cleanup_map1n_internal` on slot `arg`, with `fuel`
iterations remaining (`fuel = MAX_RECURSION - count`, `MAX_RECURSION` =
1000): when the iterations run out, warn about unreasonable map nesting and
break to the next slot; on a match, incorporate the result and return the
whole vector if the left-hand side occurred in its own expansion; on lookup
error, warn, set `cleanup_errs` and return the whole vector; on no match,
break to the next slot. -/
def map1n_inner (lookup : String → MapLookup) (unquote : String → String)
    (arg : Nat) : Nat → List String → Map1nInnerOut
  | 0, argv => ⟨argv, [.nesting], false, false, 0⟩
  | fuel + 1, argv =>
    match lookup (argv.getD arg "") with
    | .found vals =>
      let saved := argv.getD arg ""
      let inc := map1n_incorporate unquote saved arg vals argv
      if inc.2 then
        ⟨inc.1, [], false, true, 1⟩
      else
        let out := map1n_inner lookup unquote arg fuel inc.1
        ⟨out.argv, out.warns, out.errs, out.funcReturn, out.nlookups + 1⟩
    | .error => ⟨argv, [.lookupProblem], true, true, 1⟩
    | .notfound => ⟨argv, [], false, false, 1⟩

/-- Observable outcome of `cleanup_map1n_internal`. -/
structure Map1nOut where
  argv : List String
  warns : List Map1nWarn
  errs : Bool
deriving DecidableEq, Repr

/-- The outer (per-slot) loop of `cleanup_map1n_internal`
(`for (arg = 0; arg < argv->argc; arg++)`): before processing slot `arg`
the expansion cap is checked (`argv->argc > MAX_EXPANSION`, logging a
warning and breaking out when exceeded); then the inner loop runs on the
slot with the full `MAX_RECURSION` budget; an inner `return argv` ends the
whole function, otherwise the next slot (including newly appended ones) is
processed. -/
def map1n_outer (lookup : String → MapLookup) (unquote : String → String)
    (arg : Nat) (argv : List String) : Map1nOut :=
  if h1 : arg < argv.length then
    if h2 : argv.length > 1000 then
      ⟨argv, [.expansionSize], false⟩
    else
      let out := map1n_inner lookup unquote arg 1000 argv
      if out.funcReturn then
        ⟨out.argv, out.warns, out.errs⟩
      else
        let rest := map1n_outer lookup unquote (arg + 1) out.argv
        ⟨rest.argv, out.warns ++ rest.warns, out.errs || rest.errs⟩
  else
    ⟨argv, [], false⟩
termination_by 1001 - arg
decreasing_by omega

/-- `cleanup_map1n_internal`: start from the one-element vector holding the
input address and run the slot loop from slot 0. -/
def cleanup_map1n_internal (lookup : String → MapLookup)
    (unquote : String → String) (addr : String) : Map1nOut :=
  map1n_outer lookup unquote 0 [addr]

/-! ## Queue manager entries (`nqmgr/qmgr_entry.c`)

Entries are identified by an id and carry their owning peer's id
(`entry->peer`). All entries of one peer share that peer's queue
(`peer->queue`, set by `qmgr_entry_create`), so one queue (one `todo` /
`busy` list pair with its refcounts) is modelled, while peers and jobs are
indexed by number. The `QMGR_LIST_APPEND` / `QMGR_LIST_UNLINK` doubly
linked list macros live in `qmgr.h`, which is not among the extracted
sources; their list semantics are modelled from the spec: append adds at
the tail, `qmgr_entry_select` pulls the first entry of the peer list, and
unlink removes the given element. -/

/-- A queue entry: identity plus owning peer (`entry->peer`). -/
structure QEntry where
  id : Nat
  peer : Nat
deriving DecidableEq, Repr

/-- Queue manager state for one queue: the queue's `todo` and `busy` entry
lists with their refcounts, each peer's entry list and refcount, each
peer's job (`peer->job`, never changed by entry operations), each job's
`selected_entries`, and the message refcount. -/
structure QmgrState where
  todo : List QEntry
  busy : List QEntry
  plist : Nat → List QEntry
  prc : Nat → Int
  jobOf : Nat → Nat
  selected : Nat → Int
  todoRefcount : Int
  busyRefcount : Int
  msgRefcount : Int

/-- `qmgr_entry_create(peer, message)`: allocate a fresh entry, bump the
message refcount, append the entry to the peer's list (bumping the peer
refcount) and to the queue's `todo` list (bumping `todo_refcount`). -/
def qmgr_entry_create (s : QmgrState) (p : Nat) (idn : Nat) : QmgrState × QEntry :=
  let entry : QEntry := ⟨idn, p⟩
  ({ s with
      msgRefcount := s.msgRefcount + 1
      plist := Function.update s.plist p (s.plist p ++ [entry])
      prc := Function.update s.prc p (s.prc p + 1)
      todo := s.todo ++ [entry]
      todoRefcount := s.todoRefcount + 1 }, entry)

/-- `qmgr_entry_select(peer)`: when the peer's entry list is non-empty, pull
its first entry: unlink it from the queue's `todo` list, decrement
`todo_refcount`, append it to `busy`, increment `busy_refcount`, unlink it
from the peer's list and increment the peer's job's `selected_entries`. -/
def qmgr_entry_select (s : QmgrState) (p : Nat) : Option QEntry × QmgrState :=
  match s.plist p with
  | [] => (none, s)
  | entry :: _ =>
    (some entry,
     { s with
        todo := s.todo.erase entry
        todoRefcount := s.todoRefcount - 1
        busy := s.busy ++ [entry]
        busyRefcount := s.busyRefcount + 1
        plist := Function.update s.plist p ((s.plist p).erase entry)
        selected := Function.update s.selected (s.jobOf p)
          (s.selected (s.jobOf p) + 1) })

/-- `qmgr_entry_unselect(entry)`: unlink the entry from the queue's `busy`
list, decrement `busy_refcount`, append it to `todo`, increment
`todo_refcount`, append it to its peer's list again and decrement the
peer's job's `selected_entries`. -/
def qmgr_entry_unselect (s : QmgrState) (e : QEntry) : QmgrState :=
  { s with
      busy := s.busy.erase e
      busyRefcount := s.busyRefcount - 1
      todo := s.todo ++ [e]
      todoRefcount := s.todoRefcount + 1
      plist := Function.update s.plist e.peer (s.plist e.peer ++ [e])
      selected := Function.update s.selected (s.jobOf e.peer)
        (s.selected (s.jobOf e.peer) - 1) }

/-- Which list `qmgr_entry_done` is told the entry is on. -/
inductive QmgrWhich where
  | busy
  | todo
deriving DecidableEq, Repr

/-- `qmgr_entry_done(entry, which)`, the parts that move or free entries:
for `QMGR_QUEUE_BUSY`, unlink from `busy` and decrement `busy_refcount`;
for `QMGR_QUEUE_TODO`, unlink from the peer's list, increment the job's
`selected_entries`, unlink from `todo` and decrement `todo_refcount`.
Then the entry is freed, the peer refcount and the message refcount drop.
(The recipient-slot donation, blocker and queue/message disposal code does
not move entries between lists.) -/
def qmgr_entry_done (s : QmgrState) (e : QEntry) (which : QmgrWhich) : QmgrState :=
  let s1 :=
    match which with
    | .busy =>
      { s with
          busy := s.busy.erase e
          busyRefcount := s.busyRefcount - 1 }
    | .todo =>
      { s with
          plist := Function.update s.plist e.peer ((s.plist e.peer).erase e)
          selected := Function.update s.selected (s.jobOf e.peer)
            (s.selected (s.jobOf e.peer) + 1)
          todo := s.todo.erase e
          todoRefcount := s.todoRefcount - 1 }
  { s1 with
      prc := Function.update s1.prc e.peer (s1.prc e.peer - 1)
      msgRefcount := s1.msgRefcount - 1 }

/-- The entry-list invariant: `todo` and `busy` are duplicate-free and
disjoint, every peer list is duplicate-free, peer lists only hold that
peer's entries, and an entry is on its peer's list exactly when it is on
`todo`. -/
def EntryInv (s : QmgrState) : Prop :=
  s.todo.Nodup ∧ s.busy.Nodup ∧
  (∀ e, e ∈ s.todo → e ∉ s.busy) ∧
  (∀ p, (s.plist p).Nodup) ∧
  (∀ p e, e ∈ s.plist p → e.peer = p) ∧
  (∀ e : QEntry, e ∈ s.plist e.peer ↔ e ∈ s.todo)

/-! ## Theorems -/

/-- Claim C10: `fifo_trigger` returns -1 exactly when opening the FIFO
endpoint fails; when the open succeeds it returns 0 regardless of the write
and close outcomes, so a 0 result does not guarantee that the wakeup bytes
were written. -/
theorem fifo_trigger_error_contract :
    (∀ o w c, ((fifo_trigger o w c).ret = -1) = (o = false)) ∧
    (∀ w c, (fifo_trigger true w c).ret = 0) ∧
    ((fifo_trigger true false true).ret = 0 ∧
      (fifo_trigger true false true).bytesWritten = false) := by
  refine ⟨?_, ?_, by decide⟩
  · intro o w c; cases o <;> simp [fifo_trigger]
  · intro w c; simp [fifo_trigger]

/-- Claim C2, counterexample: with flush, chmod and fsync succeeding but the
close failing, the queue file carries the execute (commit-marker) bits even
though finalization failed with a write-error status — refuting that the
file receives its execute bits only on successful finalization. -/
theorem mail_stream_execbits_despite_failure :
    (mail_stream_finish_file true ⟨true, true, true, false⟩).execBits = true ∧
    (mail_stream_finish_file true ⟨true, true, true, false⟩).status =
      CleanupStat.write := by
  decide

/-- Claim C2, amended: `mail_stream_finish_file` sets the execute bits exactly
when the flush and the chmod succeed (before the fsync and close outcomes are
known); the status is success exactly when flush, chmod, the build-time
optional fsync, and close all succeed (any failure demotes it to a
write-error status); and the wakeup trigger is sent exactly when the status
is success. -/
theorem mail_stream_finish_file_contract :
    ∀ (hasFsync fl ch fs cl : Bool),
      ((mail_stream_finish_file hasFsync ⟨fl, ch, fs, cl⟩).execBits
          = (fl && ch)) ∧
      (((mail_stream_finish_file hasFsync ⟨fl, ch, fs, cl⟩).status = CleanupStat.ok)
          = ((fl && ch && (!hasFsync || fs) && cl) = true)) ∧
      ((mail_stream_finish_file hasFsync ⟨fl, ch, fs, cl⟩).triggerSent
          = ((mail_stream_finish_file hasFsync ⟨fl, ch, fs, cl⟩).status
              = CleanupStat.ok)) := by
  decide

/-- Claim C8: in `deliver_alias`, when the name equals (case-insensitively)
the alias this expansion branch originated from, the function returns `NO`
without expanding (control falls through to local-user delivery); otherwise,
when the nesting level after entry exceeds 100, the recipient is bounced
with the "possible alias database loop" diagnostic instead of expanding
further. -/
theorem deliver_alias_loop_control (expFrom : Option String) (level : Nat)
    (name : String) :
    ((∃ e, expFrom = some e ∧ strcaseEq e name = true) →
        deliver_alias_head expFrom level name = AliasHeadOut.selfNo) ∧
    ((∀ e, expFrom = some e → strcaseEq e name = false) → 100 < level + 1 →
        deliver_alias_head expFrom level name =
          AliasHeadOut.loopBounce ("possible alias database loop for " ++ name)) := by
  constructor
  · rintro ⟨e, rfl, hci⟩
    simp [deliver_alias_head, hci]
  · intro hno hlvl
    cases expFrom with
    | none => simp [deliver_alias_head, hlvl]
    | some e =>
      have he := hno e rfl
      simp [deliver_alias_head, he, hlvl]

/-- Claim C8, witness: a self-referencing alias (up to case) returns `NO`
even deep in the expansion, and a deep non-self expansion is bounced with
the loop diagnostic. -/
theorem deliver_alias_loop_control_witness :
    deliver_alias_head (some "List-A") 200 "list-a" = AliasHeadOut.selfNo ∧
    deliver_alias_head (some "other") 200 "list-a" =
      AliasHeadOut.loopBounce "possible alias database loop for list-a" := by
  constructor
  · exact (deliver_alias_loop_control (some "List-A") 200 "list-a").1
      ⟨"List-A", rfl, by decide⟩
  · exact (deliver_alias_loop_control (some "other") 200 "list-a").2
      (by intro e he; injection he with h; rw [← h]; decide) (by decide)

/-- A two-cycle mapping: `a` maps to `b` and `b` maps to `a`. -/
def map11CycleLookup : String → MapLookup := fun s =>
  if s = "a" then .found ["b"] else if s = "b" then .found ["a"] else .notfound

/-- Claim C4, counterexample: on the two-cycle mapping `a ↔ b`,
`cleanup_map11_external` stops at the recursion limit of 10 with the
lookup-error mask clear and an address that is not a fixed point of the
mapping (its lookup maps it to a different value), refuting that the result
either equals a fixed point or carries the lookup-error mask. -/
theorem cleanup_map11_limit_not_fixpoint :
    (cleanup_map11_external map11CycleLookup "a").errs = false ∧
    map11FixpointB map11CycleLookup
      (cleanup_map11_external map11CycleLookup "a").addr = false ∧
    (cleanup_map11_external map11CycleLookup "a").exit =
      Map11Exit.recursionLimit := by
  decide

/-- Helper for claim C4: exit-wise specification of `cleanup_map11_loop`,
by induction on the remaining iteration budget. -/
theorem cleanup_map11_loop_spec (lookup : String → MapLookup)
    (hne : ∀ s vals, lookup s = .found vals → vals ≠ []) :
    ∀ (fuel : Nat) (addr : String),
      (cleanup_map11_loop lookup fuel addr).nlookups ≤ fuel ∧
      ((cleanup_map11_loop lookup fuel addr).exit = Map11Exit.noMatch →
        lookup (cleanup_map11_loop lookup fuel addr).addr = .notfound ∧
        (cleanup_map11_loop lookup fuel addr).errs = false) ∧
      (∀ saved, (cleanup_map11_loop lookup fuel addr).exit = Map11Exit.selfMatch saved →
        (∃ vals, lookup saved = .found vals ∧
          vals.head? = some (cleanup_map11_loop lookup fuel addr).addr ∧
          strcaseEq saved (cleanup_map11_loop lookup fuel addr).addr = true) ∧
        (cleanup_map11_loop lookup fuel addr).errs = false) ∧
      ((cleanup_map11_loop lookup fuel addr).exit = Map11Exit.lookupError →
        (cleanup_map11_loop lookup fuel addr).errs = true ∧
        lookup (cleanup_map11_loop lookup fuel addr).addr = .error) ∧
      ((cleanup_map11_loop lookup fuel addr).exit = Map11Exit.recursionLimit →
        (cleanup_map11_loop lookup fuel addr).warnedNesting = true ∧
        (cleanup_map11_loop lookup fuel addr).errs = false) := by
  intro fuel
  induction fuel with
  | zero =>
    intro addr
    refine ⟨Nat.le_refl 0, ?_, ?_, ?_, ?_⟩
    · intro hx; exact Map11Exit.noConfusion hx
    · intro saved hx; exact Map11Exit.noConfusion hx
    · intro hx; exact Map11Exit.noConfusion hx
    · intro _; exact ⟨rfl, rfl⟩
  | succ f ih =>
    intro addr
    cases h : lookup addr with
    | found vals =>
      obtain ⟨v0, vs, rfl⟩ : ∃ v0 vs, vals = v0 :: vs := by
        cases vals with
        | nil => exact absurd rfl (hne addr [] h)
        | cons a b => exact ⟨a, b, rfl⟩
      cases hci : strcaseEq addr v0 with
      | true =>
        have hout : cleanup_map11_loop lookup (f + 1) addr =
            ⟨v0, false, false, 1, .selfMatch addr⟩ := by
          simp [cleanup_map11_loop, h, hci]
        rw [hout]
        refine ⟨Nat.le_add_left 1 f, ?_, ?_, ?_, ?_⟩
        · intro hx; exact Map11Exit.noConfusion hx
        · intro saved hx
          have hsaved : addr = saved := by injection hx
          subst hsaved
          exact ⟨⟨v0 :: vs, h, rfl, hci⟩, rfl⟩
        · intro hx; exact Map11Exit.noConfusion hx
        · intro hx; exact Map11Exit.noConfusion hx
      | false =>
        have hout : cleanup_map11_loop lookup (f + 1) addr =
            ⟨(cleanup_map11_loop lookup f v0).addr,
             (cleanup_map11_loop lookup f v0).errs,
             (cleanup_map11_loop lookup f v0).warnedNesting,
             (cleanup_map11_loop lookup f v0).nlookups + 1,
             (cleanup_map11_loop lookup f v0).exit⟩ := by
          simp [cleanup_map11_loop, h, hci]
        rw [hout]
        obtain ⟨ih1, ih2, ih3, ih4, ih5⟩ := ih v0
        exact ⟨Nat.succ_le_succ ih1, ih2, ih3, ih4, ih5⟩
    | notfound =>
      have hout : cleanup_map11_loop lookup (f + 1) addr =
          ⟨addr, false, false, 1, .noMatch⟩ := by
        simp [cleanup_map11_loop, h]
      rw [hout]
      refine ⟨Nat.le_add_left 1 f, ?_, ?_, ?_, ?_⟩
      · intro _; exact ⟨h, rfl⟩
      · intro saved hx; exact Map11Exit.noConfusion hx
      · intro hx; exact Map11Exit.noConfusion hx
      · intro hx; exact Map11Exit.noConfusion hx
    | error =>
      have hout : cleanup_map11_loop lookup (f + 1) addr =
          ⟨addr, true, false, 1, .lookupError⟩ := by
        simp [cleanup_map11_loop, h]
      rw [hout]
      refine ⟨Nat.le_add_left 1 f, ?_, ?_, ?_, ?_⟩
      · intro hx; exact Map11Exit.noConfusion hx
      · intro saved hx; exact Map11Exit.noConfusion hx
      · intro _; exact ⟨rfl, h⟩
      · intro hx; exact Map11Exit.noConfusion hx

/-- Claim C4, amended: `cleanup_map11_external` performs at most 10 lookup
iterations, and on return either the address is a fixed point in the
claim's sense (its lookup finds no match, or the last lookup mapped the
previous value onto the result with a case-insensitive self match), or the
recoverable lookup-error mask has been set with the erroring value
preserved, or the recursion limit of 10 was reached and the unreasonable
nesting warning was logged. -/
theorem cleanup_map11_external_contract (lookup : String → MapLookup)
    (addr : String)
    (hne : ∀ s vals, lookup s = .found vals → vals ≠ []) :
    (cleanup_map11_external lookup addr).nlookups ≤ 10 ∧
    (lookup (cleanup_map11_external lookup addr).addr = .notfound ∨
      (∃ saved vals, lookup saved = .found vals ∧
        vals.head? = some (cleanup_map11_external lookup addr).addr ∧
        strcaseEq saved (cleanup_map11_external lookup addr).addr = true) ∨
      ((cleanup_map11_external lookup addr).errs = true ∧
        lookup (cleanup_map11_external lookup addr).addr = .error) ∨
      (cleanup_map11_external lookup addr).warnedNesting = true) := by
  have h := cleanup_map11_loop_spec lookup hne 10 addr
  refine ⟨h.1, ?_⟩
  cases hx : (cleanup_map11_loop lookup 10 addr).exit with
  | noMatch => exact Or.inl (h.2.1 hx).1
  | selfMatch saved =>
    exact Or.inr (Or.inl ⟨saved, (h.2.2.1 saved hx).1⟩)
  | lookupError => exact Or.inr (Or.inr (Or.inl (h.2.2.2.1 hx)))
  | recursionLimit => exact Or.inr (Or.inr (Or.inr (h.2.2.2.2 hx).1))

/-- A one-step mapping: `a` maps to `b`, everything else is unmatched. -/
def map11ChainLookup : String → MapLookup := fun s =>
  if s = "a" then .found ["b"] else .notfound

/-- Claim C4, witness: the amended contract evaluated on the one-step
mapping of `a` to `b`. -/
theorem cleanup_map11_external_contract_witness :
    (cleanup_map11_external map11ChainLookup "a").nlookups ≤ 10 ∧
    (map11ChainLookup (cleanup_map11_external map11ChainLookup "a").addr
        = .notfound ∨
      (∃ saved vals, map11ChainLookup saved = .found vals ∧
        vals.head? = some (cleanup_map11_external map11ChainLookup "a").addr ∧
        strcaseEq saved (cleanup_map11_external map11ChainLookup "a").addr
          = true) ∨
      ((cleanup_map11_external map11ChainLookup "a").errs = true ∧
        map11ChainLookup (cleanup_map11_external map11ChainLookup "a").addr
          = .error) ∨
      (cleanup_map11_external map11ChainLookup "a").warnedNesting = true) := by
  refine cleanup_map11_external_contract map11ChainLookup "a" ?_
  intro s vals h
  unfold map11ChainLookup at h
  split at h
  · cases h; simp
  · cases h


/-- Helper: unfolding of the inner loop at a matched lookup. -/
theorem map1n_inner_found (lookup : String → MapLookup) (unquote : String → String)
    (arg : Nat) (f : Nat) (argv : List String) (vals : List String)
    (h : lookup (argv.getD arg "") = .found vals) :
    map1n_inner lookup unquote arg (f + 1) argv =
      (if (map1n_incorporate unquote (argv.getD arg "") arg vals argv).2 then
        ⟨(map1n_incorporate unquote (argv.getD arg "") arg vals argv).1,
         [], false, true, 1⟩
      else
        ⟨(map1n_inner lookup unquote arg f
            (map1n_incorporate unquote (argv.getD arg "") arg vals argv).1).argv,
         (map1n_inner lookup unquote arg f
            (map1n_incorporate unquote (argv.getD arg "") arg vals argv).1).warns,
         (map1n_inner lookup unquote arg f
            (map1n_incorporate unquote (argv.getD arg "") arg vals argv).1).errs,
         (map1n_inner lookup unquote arg f
            (map1n_incorporate unquote (argv.getD arg "") arg vals argv).1).funcReturn,
         (map1n_inner lookup unquote arg f
            (map1n_incorporate unquote (argv.getD arg "") arg vals argv).1).nlookups + 1⟩) := by
  conv_lhs => rw [map1n_inner, h]

/-- Helper: unfolding of the inner loop at a lookup error. -/
theorem map1n_inner_error (lookup : String → MapLookup) (unquote : String → String)
    (arg : Nat) (f : Nat) (argv : List String)
    (h : lookup (argv.getD arg "") = .error) :
    map1n_inner lookup unquote arg (f + 1) argv =
      ⟨argv, [.lookupProblem], true, true, 1⟩ := by
  conv_lhs => rw [map1n_inner, h]

/-- Helper: unfolding of the inner loop at an unmatched lookup. -/
theorem map1n_inner_notfound (lookup : String → MapLookup) (unquote : String → String)
    (arg : Nat) (f : Nat) (argv : List String)
    (h : lookup (argv.getD arg "") = .notfound) :
    map1n_inner lookup unquote arg (f + 1) argv =
      ⟨argv, [], false, false, 1⟩ := by
  conv_lhs => rw [map1n_inner, h]

/-- Helper: when the expansion cap is hit at a slot boundary
(`argv->argc > MAX_EXPANSION` with slots left), `cleanup_map1n_internal`
logs the expansion-size warning and returns the current list unchanged. -/
theorem map1n_outer_cap (lookup : String → MapLookup) (unquote : String → String)
    (arg : Nat) (argv : List String) (h1 : arg < argv.length)
    (h2 : argv.length > 1000) :
    map1n_outer lookup unquote arg argv = ⟨argv, [.expansionSize], false⟩ := by
  rw [map1n_outer.eq_def, dif_pos h1, dif_pos h2]

/-- Helper: slot-loop step when the inner loop returned the whole function. -/
theorem map1n_outer_step_return (lookup : String → MapLookup)
    (unquote : String → String) (arg : Nat) (argv : List String)
    (h1 : arg < argv.length) (h2 : ¬argv.length > 1000)
    (hfr : (map1n_inner lookup unquote arg 1000 argv).funcReturn = true) :
    map1n_outer lookup unquote arg argv =
      ⟨(map1n_inner lookup unquote arg 1000 argv).argv,
       (map1n_inner lookup unquote arg 1000 argv).warns,
       (map1n_inner lookup unquote arg 1000 argv).errs⟩ := by
  rw [map1n_outer.eq_def, dif_pos h1, dif_neg h2]
  simp only [hfr, if_true]

/-- Helper: slot-loop step when the inner loop fell through to the next slot. -/
theorem map1n_outer_step_next (lookup : String → MapLookup)
    (unquote : String → String) (arg : Nat) (argv : List String)
    (h1 : arg < argv.length) (h2 : ¬argv.length > 1000)
    (hfr : (map1n_inner lookup unquote arg 1000 argv).funcReturn = false) :
    map1n_outer lookup unquote arg argv =
      ⟨(map1n_outer lookup unquote (arg + 1)
          (map1n_inner lookup unquote arg 1000 argv).argv).argv,
       (map1n_inner lookup unquote arg 1000 argv).warns ++
         (map1n_outer lookup unquote (arg + 1)
           (map1n_inner lookup unquote arg 1000 argv).argv).warns,
       (map1n_inner lookup unquote arg 1000 argv).errs ||
         (map1n_outer lookup unquote (arg + 1)
           (map1n_inner lookup unquote arg 1000 argv).argv).errs⟩ := by
  rw [map1n_outer.eq_def, dif_pos h1, dif_neg h2]
  simp only [hfr, Bool.false_eq_true, if_false]

/-- Helper: the slot loop with no slots left returns the list unchanged. -/
theorem map1n_outer_exit (lookup : String → MapLookup)
    (unquote : String → String) (arg : Nat) (argv : List String)
    (h1 : ¬arg < argv.length) :
    map1n_outer lookup unquote arg argv = ⟨argv, [], false⟩ := by
  rw [map1n_outer.eq_def, dif_neg h1]

/-- Helper: incorporating one lookup result grows the vector by at most the
number of values beyond the first. -/
theorem map1n_incorporate_length (unquote : String → String) (saved : String)
    (arg : Nat) (vals : List String) (argv : List String) :
    (map1n_incorporate unquote saved arg vals argv).1.length ≤
      argv.length + (vals.length - 1) := by
  cases vals with
  | nil => simp [map1n_incorporate]
  | cons v rest => simp [map1n_incorporate, List.length_set]

/-- Helper: with every lookup result of length at most `k`, the inner loop
grows the vector by at most `fuel * (k - 1)` entries. -/
theorem map1n_inner_length (lookup : String → MapLookup)
    (unquote : String → String) (k : Nat)
    (hk : ∀ s l, lookup s = .found l → l.length ≤ k) (arg : Nat) :
    ∀ (fuel : Nat) (argv : List String),
      (map1n_inner lookup unquote arg fuel argv).argv.length ≤
        argv.length + fuel * (k - 1) := by
  intro fuel
  induction fuel with
  | zero => intro argv; simp [map1n_inner]
  | succ f ih =>
    intro argv
    have hmul : f * (k - 1) + (k - 1) = (f + 1) * (k - 1) := by ring
    cases h : lookup (argv.getD arg "") with
    | found vals =>
      have hlv : vals.length ≤ k := hk _ _ h
      have hinc := map1n_incorporate_length unquote (argv.getD arg "") arg vals argv
      rw [map1n_inner_found lookup unquote arg f argv vals h]
      cases hself : (map1n_incorporate unquote (argv.getD arg "") arg vals argv).2 with
      | true =>
        rw [if_pos rfl]
        dsimp only
        omega
      | false =>
        rw [if_neg Bool.false_ne_true]
        dsimp only
        have hrec := ih (map1n_incorporate unquote (argv.getD arg "") arg vals argv).1
        omega
    | error =>
      rw [map1n_inner_error lookup unquote arg f argv h]
      dsimp only
      omega
    | notfound =>
      rw [map1n_inner_notfound lookup unquote arg f argv h]
      dsimp only
      omega

/-- Helper: the inner loop performs at most `fuel` lookup iterations. -/
theorem map1n_inner_nlookups (lookup : String → MapLookup)
    (unquote : String → String) (arg : Nat) :
    ∀ (fuel : Nat) (argv : List String),
      (map1n_inner lookup unquote arg fuel argv).nlookups ≤ fuel := by
  intro fuel
  induction fuel with
  | zero => intro argv; simp [map1n_inner]
  | succ f ih =>
    intro argv
    cases h : lookup (argv.getD arg "") with
    | found vals =>
      rw [map1n_inner_found lookup unquote arg f argv vals h]
      cases hself : (map1n_incorporate unquote (argv.getD arg "") arg vals argv).2 with
      | true =>
        rw [if_pos rfl]
        dsimp only
        omega
      | false =>
        rw [if_neg Bool.false_ne_true]
        dsimp only
        have hrec := ih (map1n_incorporate unquote (argv.getD arg "") arg vals argv).1
        omega
    | error =>
      rw [map1n_inner_error lookup unquote arg f argv h]
      dsimp only
      omega
    | notfound =>
      rw [map1n_inner_notfound lookup unquote arg f argv h]
      dsimp only
      omega

/-- Helper: the slot loop keeps the vector length at most `1000 * k` when it
starts under that bound and every lookup result has length at most `k`. -/
theorem map1n_outer_length (lookup : String → MapLookup)
    (unquote : String → String) (k : Nat)
    (hk : ∀ s l, lookup s = .found l → l.length ≤ k) :
    ∀ (arg : Nat) (argv : List String), argv.length ≤ 1000 * k →
      (map1n_outer lookup unquote arg argv).argv.length ≤ 1000 * k := by
  intro arg argv
  induction arg, argv using map1n_outer.induct lookup unquote with
  | case1 arg argv h1 h2 =>
    intro hlen
    rw [map1n_outer_cap lookup unquote arg argv h1 h2]
    exact hlen
  | case2 arg argv h1 h2 out hfr =>
    intro hlen
    rw [map1n_outer_step_return lookup unquote arg argv h1 h2 hfr]
    dsimp only
    have hinner := map1n_inner_length lookup unquote k hk arg 1000 argv
    omega
  | case3 arg argv h1 h2 out hfr ih =>
    intro hlen
    have hfr2 : (map1n_inner lookup unquote arg 1000 argv).funcReturn = false := by
      cases hx : (map1n_inner lookup unquote arg 1000 argv).funcReturn with
      | true => exact absurd hx hfr
      | false => rfl
    rw [map1n_outer_step_next lookup unquote arg argv h1 h2 hfr2]
    dsimp only
    have hinner := map1n_inner_length lookup unquote k hk arg 1000 argv
    have hnext : (map1n_inner lookup unquote arg 1000 argv).argv.length ≤ 1000 * k := by
      omega
    exact ih hnext
  | case4 arg argv h1 =>
    intro hlen
    rw [map1n_outer_exit lookup unquote arg argv h1]
    exact hlen

/-- A mapping whose single matched entry expands to 1001 addresses. -/
def map1nWideLookup : String → MapLookup := fun s =>
  if s = "a" then .found (List.replicate 1001 "b") else .notfound

set_option maxRecDepth 10000 in
/-- Claim C3, counterexample: one lookup can append past the expansion cap,
because the cap is only checked at slot boundaries — expanding `a` through a
map entry with 1001 values returns a list of 1001 entries, refuting that the
returned list has length at most 1000. -/
theorem cleanup_map1n_exceeds_expansion_cap :
    ¬(cleanup_map1n_internal map1nWideLookup (fun s => s) "a").argv.length ≤ 1000 := by
  have h1 : map1n_inner map1nWideLookup (fun s => s) 0 1000 ["a"]
      = ⟨List.replicate 1001 "b", [], false, false, 2⟩ := by decide
  have h2 : map1n_outer map1nWideLookup (fun s => s) 1 (List.replicate 1001 "b")
      = ⟨List.replicate 1001 "b", [.expansionSize], false⟩ :=
    map1n_outer_cap _ _ 1 _ (by rw [List.length_replicate]; norm_num)
      (by rw [List.length_replicate]; norm_num)
  have h3 : (cleanup_map1n_internal map1nWideLookup (fun s => s) "a").argv.length
      = 1001 := by
    unfold cleanup_map1n_internal
    rw [map1n_outer.eq_def, dif_pos (by decide : (0:Nat) < ["a"].length),
      dif_neg (by decide : ¬(["a"] : List String).length > 1000), h1]
    show (map1n_outer map1nWideLookup (fun s => s) 1
      (List.replicate 1001 "b")).argv.length = 1001
    rw [h2]
    rw [List.length_replicate]
  omega

/-- Claim C3, amended: `cleanup_map1n_internal` checks the expansion cap only
before processing a slot, so the returned list can exceed 1000 entries only
by the values a single slot's expansion appended — with every lookup result
of length at most `k`, the result has at most `1000 * k` entries; the inner
loop applies at most 1000 lookup iterations per list slot (revisiting newly
appended slots); exceeding the expansion cap at a slot boundary logs a
warning and returns the current list; exceeding the per-slot recursion cap
logs a warning and continues with the next slot; and the whole function
returns the current list as soon as any lookup result contains the
looked-up left-hand side (case-insensitive, unquoted form). -/
theorem cleanup_map1n_internal_contract (lookup : String → MapLookup)
    (unquote : String → String) (addr : String) (k : Nat)
    (hk : ∀ s l, lookup s = .found l → l.length ≤ k) (hk1 : 1 ≤ k) :
    (cleanup_map1n_internal lookup unquote addr).argv.length ≤ 1000 * k ∧
    (∀ arg argv, (map1n_inner lookup unquote arg 1000 argv).nlookups ≤ 1000) ∧
    (∀ arg argv, arg < argv.length → argv.length > 1000 →
        map1n_outer lookup unquote arg argv =
          ⟨argv, [Map1nWarn.expansionSize], false⟩) ∧
    (∀ arg argv, map1n_inner lookup unquote arg 0 argv =
        ⟨argv, [Map1nWarn.nesting], false, false, 0⟩) ∧
    (∀ arg fuel argv vals, lookup (argv.getD arg "") = .found vals →
        (map1n_incorporate unquote (argv.getD arg "") arg vals argv).2 = true →
        map1n_inner lookup unquote arg (fuel + 1) argv =
          ⟨(map1n_incorporate unquote (argv.getD arg "") arg vals argv).1,
           [], false, true, 1⟩) ∧
    (∀ arg argv, arg < argv.length → ¬argv.length > 1000 →
        (map1n_inner lookup unquote arg 1000 argv).funcReturn = true →
        map1n_outer lookup unquote arg argv =
          ⟨(map1n_inner lookup unquote arg 1000 argv).argv,
           (map1n_inner lookup unquote arg 1000 argv).warns,
           (map1n_inner lookup unquote arg 1000 argv).errs⟩) := by
  refine ⟨?_, ?_, ?_, ?_, ?_, ?_⟩
  · refine map1n_outer_length lookup unquote k hk 0 [addr] ?_
    have : (1:Nat) ≤ 1000 * k := by omega
    simpa using this
  · intro arg argv
    exact map1n_inner_nlookups lookup unquote arg 1000 argv
  · intro arg argv h1 h2
    exact map1n_outer_cap lookup unquote arg argv h1 h2
  · intro arg argv
    rfl
  · intro arg fuel argv vals h hself
    rw [map1n_inner_found lookup unquote arg fuel argv vals h, if_pos hself]
  · intro arg argv h1 h2 hfr
    exact map1n_outer_step_return lookup unquote arg argv h1 h2 hfr

/-- A mapping where `a` expands to the two addresses `b` and `c`. -/
def map1nPairLookup : String → MapLookup := fun s =>
  if s = "a" then .found ["b", "c"] else .notfound

/-- Claim C3, witness: the amended length bound evaluated on a mapping whose
results hold at most two values. -/
theorem cleanup_map1n_internal_contract_witness :
    (cleanup_map1n_internal map1nPairLookup (fun s => s) "a").argv.length ≤
      1000 * 2 := by
  refine (cleanup_map1n_internal_contract map1nPairLookup (fun s => s) "a" 2
    ?_ (by norm_num)).1
  intro s l h
  unfold map1nPairLookup at h
  split at h
  · cases h; simp
  · cases h

/-- Helper: `bounce_log_read` past the last line returns no record. -/
theorem bounce_log_read_end (lines : List String) (pos : Nat)
    (hget : lines.get? pos = none) :
    bounce_log_read lines pos = none := by
  rw [bounce_log_read.eq_def]
  split
  · rfl
  · next l h => rw [hget] at h; cases h

/-- Helper: `bounce_log_read` on a line that parses returns that record. -/
theorem bounce_log_read_found (lines : List String) (pos : Nat) (line r t : String)
    (hget : lines.get? pos = some line)
    (hparse : bounce_log_parse line = some (r, t)) :
    bounce_log_read lines pos = some ⟨r, t, pos⟩ := by
  rw [bounce_log_read.eq_def]
  split
  · next h => rw [hget] at h; cases h
  · next l h =>
    rw [hget] at h
    cases h
    rw [hparse]

/-- Helper: `bounce_log_read` skips a line that does not parse (empty,
tombstoned, or malformed). -/
theorem bounce_log_read_skip (lines : List String) (pos : Nat) (line : String)
    (hget : lines.get? pos = some line)
    (hparse : bounce_log_parse line = none) :
    bounce_log_read lines pos = bounce_log_read lines (pos + 1) := by
  rw [bounce_log_read.eq_def]
  split
  · next h => rw [hget] at h; cases h
  · next l h =>
    rw [hget] at h
    cases h
    rw [hparse]

/-- Helper: a line that parses starts (after sanitizing) with `<`. -/
theorem bounce_log_parse_head (line : String) (pr : String × String)
    (h : bounce_log_parse line = some pr) :
    (printableStr line).data.head? = some '<' := by
  unfold bounce_log_parse at h
  split at h
  · cases h
  · simp only [] at h
    split at h
    · cases h
    · split at h
      · cases h
      · next hne => exact not_not.mp hne

/-- Helper: a line that parses is not tombstoned, before or after
sanitizing. -/
theorem bounce_log_parse_not_deleted (line : String) (pr : String × String)
    (h : bounce_log_parse line = some pr) :
    (printableStr line).data.head? ≠ some BOUNCE_LOG_STAT_DELETED ∧
      line.data.head? ≠ some BOUNCE_LOG_STAT_DELETED := by
  have hlt := bounce_log_parse_head line pr h
  constructor
  · rw [hlt]
    intro hx
    cases hx
  · intro hraw
    have : (printableStr line).data.head? = some BOUNCE_LOG_STAT_DELETED := by
      unfold printableStr
      rw [List.head?_map, hraw]
      rfl
    rw [hlt] at this
    cases this

/-- Claim C9: tombstoning a recipient record (`bounce_log_delrcpt`) is
idempotent — overwriting the leading byte with the deleted sentinel twice at
the same saved offset yields the same file as doing it once; and
`bounce_log_read` never returns a tombstoned record: a returned record's
line does not start with the sentinel, and a line that does start with the
sentinel is skipped. -/
theorem bounce_log_tombstone_contract :
    (∀ (lines : List String) (off : Nat),
        bounce_log_delrcpt (bounce_log_delrcpt lines off) off =
          bounce_log_delrcpt lines off) ∧
    (∀ (lines : List String) (pos : Nat) (rec : BounceRec),
        bounce_log_read lines pos = some rec →
        ∃ line, lines.get? rec.offset = some line ∧
          (printableStr line).data.head? ≠ some BOUNCE_LOG_STAT_DELETED ∧
          line.data.head? ≠ some BOUNCE_LOG_STAT_DELETED) ∧
    (∀ (lines : List String) (pos : Nat) (line : String),
        lines.get? pos = some line →
        (printableStr line).data.head? = some BOUNCE_LOG_STAT_DELETED →
        bounce_log_read lines pos = bounce_log_read lines (pos + 1)) := by
  refine ⟨?_, ?_, ?_⟩
  · intro lines off
    cases h : lines.get? off with
    | none =>
      have hin : bounce_log_delrcpt lines off = lines := by
        unfold bounce_log_delrcpt
        rw [h]
      rw [hin, hin]
    | some l =>
      obtain ⟨hlt, -⟩ := List.get?_eq_some.mp h
      have hin : bounce_log_delrcpt lines off = lines.set off (tombstoneLine l) := by
        unfold bounce_log_delrcpt
        rw [h]
      rw [hin]
      unfold bounce_log_delrcpt
      rw [List.get?_set_eq_of_lt (tombstoneLine l) hlt]
      show (lines.set off (tombstoneLine l)).set off
          (tombstoneLine (tombstoneLine l)) = lines.set off (tombstoneLine l)
      rw [List.set_set]
      rfl
  · intro lines pos rec
    induction pos using bounce_log_read.induct lines with
    | case1 pos hget =>
      intro hread
      rw [bounce_log_read_end lines pos hget] at hread
      cases hread
    | case2 pos line hget r t hparse =>
      intro hread
      rw [bounce_log_read_found lines pos line r t hget hparse] at hread
      cases hread
      exact ⟨line, hget, bounce_log_parse_not_deleted line (r, t) hparse⟩
    | case3 pos line hget hparse ih =>
      intro hread
      rw [bounce_log_read_skip lines pos line hget hparse] at hread
      exact ih hread
  · intro lines pos line hget hdel
    have hparse : bounce_log_parse line = none := by
      unfold bounce_log_parse
      split
      · rfl
      · rw [if_pos hdel]
    exact bounce_log_read_skip lines pos line hget hparse

/-- Claim C9, witness: in a file whose first line is tombstoned, the reader
returns the second record, whose line is untombstoned. -/
theorem bounce_log_tombstone_contract_witness :
    ∃ line, (["D<x>: old", "<a>: gone"] : List String).get?
        (BounceRec.mk "a" "gone" 1).offset = some line ∧
      (printableStr line).data.head? ≠ some BOUNCE_LOG_STAT_DELETED ∧
      line.data.head? ≠ some BOUNCE_LOG_STAT_DELETED := by
  refine bounce_log_tombstone_contract.2.1 ["D<x>: old", "<a>: gone"] 0
    ⟨"a", "gone", 1⟩ ?_
  have h0 : bounce_log_read ["D<x>: old", "<a>: gone"] 0 =
      bounce_log_read ["D<x>: old", "<a>: gone"] 1 :=
    bounce_log_read_skip _ 0 "D<x>: old" rfl (by decide)
  have h1 : bounce_log_read ["D<x>: old", "<a>: gone"] 1 =
      some ⟨"a", "gone", 1⟩ :=
    bounce_log_read_found _ 1 "<a>: gone" "a" "gone" rfl (by decide)
  rw [h0, h1]

/-- Helper: a list is pairwise related by a relation that holds for all
pairs. -/
theorem pairwise_of_rel_all {α : Type} {R : α → α → Prop} (h : ∀ a b, R a b) :
    ∀ l : List α, l.Pairwise R
  | [] => .nil
  | x :: xs => .cons (fun y _ => h x y) (pairwise_of_rel_all h xs)

/-- Helper: the sorted MX list is ordered by ascending preference. -/
theorem smtp_sort_mx_sorted (mx : List MxRR) :
    (smtp_sort_mx mx).Pairwise (fun a b => a.pref ≤ b.pref) := by
  haveI : IsTotal MxRR (fun a b => a.pref ≤ b.pref) :=
    ⟨fun a b => Nat.le_total a.pref b.pref⟩
  haveI : IsTrans MxRR (fun a b => a.pref ≤ b.pref) :=
    ⟨fun a b c => Nat.le_trans⟩
  exact List.sorted_insertionSort _ mx

/-- Helper: sorting the MX list permutes it. -/
theorem smtp_sort_mx_perm (mx : List MxRR) : (smtp_sort_mx mx).Perm mx :=
  List.perm_insertionSort _ mx

/-- Helper: every candidate address carries the preference of one of the MX
records it was resolved for. -/
theorem smtp_addr_list_pref_mem (lookupA : String → List Nat) (mx : List MxRR)
    (r : AddrRR) (h : r ∈ smtp_addr_list lookupA mx) :
    ∃ m ∈ mx, r.pref = m.pref := by
  unfold smtp_addr_list at h
  obtain ⟨m, hm, hr⟩ := List.mem_flatMap.mp h
  obtain ⟨a, -, rfl⟩ := List.mem_map.mp hr
  exact ⟨m, hm, rfl⟩

/-- Helper: resolving a preference-sorted MX list yields a candidate list
sorted by ascending preference. -/
theorem smtp_addr_list_sorted (lookupA : String → List Nat) :
    ∀ mx : List MxRR, mx.Pairwise (fun a b => a.pref ≤ b.pref) →
      (smtp_addr_list lookupA mx).Pairwise (fun a b => a.pref ≤ b.pref) := by
  intro mx
  induction mx with
  | nil => intro; exact .nil
  | cons m rest ih =>
    intro hs
    have hexp : smtp_addr_list lookupA (m :: rest) =
        (lookupA m.host).map (fun a => (⟨m.pref, a⟩ : AddrRR)) ++
          smtp_addr_list lookupA rest := by
      unfold smtp_addr_list
      rw [List.flatMap_cons]
    rw [hexp, List.pairwise_append]
    refine ⟨?_, ih (List.pairwise_cons.mp hs).2, ?_⟩
    · rw [List.pairwise_map]
      exact pairwise_of_rel_all (fun a b => Nat.le_refl m.pref) (lookupA m.host)
    · intro a ha b hb
      obtain ⟨x, -, rfl⟩ := List.mem_map.mp ha
      obtain ⟨m2, hm2, hpref⟩ := smtp_addr_list_pref_mem lookupA rest b hb
      show m.pref ≤ b.pref
      rw [hpref]
      exact (List.pairwise_cons.mp hs).1 m2 hm2

/-- Helper: on a preference-sorted candidate list that contains preference
`P`, truncation at `P` keeps exactly the entries with preference strictly
below `P`. -/
theorem smtp_truncate_eq_filter :
    ∀ (l : List AddrRR) (P : Nat),
      l.Pairwise (fun a b => a.pref ≤ b.pref) → (∃ r ∈ l, r.pref = P) →
      smtp_truncate_self l P = l.filter (fun r => decide (r.pref < P)) := by
  intro l
  induction l with
  | nil =>
    intro P _ hmem
    obtain ⟨r, hr, -⟩ := hmem
    cases hr
  | cons x xs ih =>
    intro P hs hmem
    by_cases hx : x.pref = P
    · have ht : smtp_truncate_self (x :: xs) P = [] := by
        simp [smtp_truncate_self, hx]
      rw [ht]
      symm
      rw [List.filter_eq_nil_iff]
      intro a ha
      rcases List.mem_cons.mp ha with h | h
      · subst h
        simp
        omega
      · have hle := (List.pairwise_cons.mp hs).1 a h
        simp
        omega
    · have hxlt : x.pref < P := by
        obtain ⟨r, hr, hrP⟩ := hmem
        rcases List.mem_cons.mp hr with h | h
        · subst h
          exact absurd hrP hx
        · have hle := (List.pairwise_cons.mp hs).1 r h
          omega
      have hmem2 : ∃ r ∈ xs, r.pref = P := by
        obtain ⟨r, hr, hrP⟩ := hmem
        rcases List.mem_cons.mp hr with h | h
        · subst h
          exact absurd hrP hx
        · exact ⟨r, h, hrP⟩
      have ht : smtp_truncate_self (x :: xs) P = x :: smtp_truncate_self xs P := by
        simp [smtp_truncate_self, hx]
      rw [ht, ih P (List.pairwise_cons.mp hs).2 hmem2, List.filter_cons,
        if_pos (by simpa using hxlt)]

/-- Helper: `smtp_domain_addr`, with self found and a non-empty truncated
list, returns the truncated list. -/
theorem smtp_domain_addr_dnsok_self_keep (name : String) (selfAddrs : List Nat)
    (bestmx : Bool) (lookupA : String → List Nat) (mxNames : List MxRR)
    (selfRR : AddrRR) (tr : List AddrRR) (first : AddrRR) (rest : List AddrRR)
    (haddr : smtp_addr_list lookupA (smtp_sort_mx mxNames) = first :: rest)
    (hfind : smtp_find_self selfAddrs (first :: rest) = some selfRR)
    (htr : smtp_truncate_self (first :: rest) selfRR.pref = tr)
    (hne : tr ≠ []) :
    (smtp_domain_addr_dnsok name selfAddrs bestmx lookupA mxNames).addrs = tr := by
  simp only [smtp_domain_addr_dnsok]
  rw [haddr, hfind]
  dsimp only
  cases tr with
  | nil => exact absurd rfl hne
  | cons t ts => rw [htr]

/-- Helper: `smtp_domain_addr`, with self found and the truncation leaving
nothing, reaches the loop-handling branch. -/
theorem smtp_domain_addr_dnsok_self_empty (name : String) (selfAddrs : List Nat)
    (bestmx : Bool) (lookupA : String → List Nat) (mxNames : List MxRR)
    (selfRR : AddrRR) (first : AddrRR) (rest : List AddrRR)
    (haddr : smtp_addr_list lookupA (smtp_sort_mx mxNames) = first :: rest)
    (hfind : smtp_find_self selfAddrs (first :: rest) = some selfRR)
    (htr : smtp_truncate_self (first :: rest) selfRR.pref = []) :
    smtp_domain_addr_dnsok name selfAddrs bestmx lookupA mxNames =
      (if (smtp_sort_mx mxNames).head?.map MxRR.pref ≠ some first.pref then
        ⟨[], some .retry, some ("unable to find primary relay for " ++ name), true⟩
      else if bestmx then ⟨[], some .ok, none, true⟩
      else
        ⟨[], some .fail, some ("mail for " ++ name ++ " loops back to myself"),
         true⟩) := by
  simp only [smtp_domain_addr_dnsok]
  rw [haddr, hfind]
  dsimp only
  rw [htr]

/-- Helper: the best preference listed in DNS is at most the best preference
that resolved (the head of the candidate list). -/
theorem smtp_best_pref_le (lookupA : String → List Nat) (mxNames : List MxRR)
    (first : AddrRR) (rest : List AddrRR)
    (haddr : smtp_addr_list lookupA (smtp_sort_mx mxNames) = first :: rest) :
    ∃ bp, (smtp_sort_mx mxNames).head?.map MxRR.pref = some bp ∧
      bp ≤ first.pref := by
  have hfmem : first ∈ smtp_addr_list lookupA (smtp_sort_mx mxNames) := by
    rw [haddr]
    exact List.mem_cons_self first rest
  obtain ⟨m, hm, hpref⟩ := smtp_addr_list_pref_mem lookupA _ first hfmem
  have hs := smtp_sort_mx_sorted mxNames
  cases hmx : smtp_sort_mx mxNames with
  | nil =>
    rw [hmx] at hm
    cases hm
  | cons m0 ms =>
    rw [hmx] at hm hs
    refine ⟨m0.pref, rfl, ?_⟩
    rw [hpref]
    rcases List.mem_cons.mp hm with h | h
    · rw [h]
    · exact (List.pairwise_cons.mp hs).1 m h

/-- A-record resolution for two MX hosts: `h1` resolves to address 1 and
`h2` to address 2. -/
def smtpTwoHostLookupA : String → List Nat := fun h =>
  if h = "h1" then [1] else if h = "h2" then [2] else []

/-- Claim C1, counterexample: with MX hosts `h1` (preference 1, the local
host) and `h2` (preference 2), the local host is found at preference 1,
and the entry of preference 2 — which the claim says must stay — is
removed: the returned list is empty. Truncation drops everything from the
first preference-1 entry on, not just the preference-1 entries. -/
theorem smtp_truncate_drops_higher_pref :
    smtp_find_self [1]
        (smtp_addr_list smtpTwoHostLookupA
          (smtp_sort_mx [⟨1, "h1"⟩, ⟨2, "h2"⟩])) = some ⟨1, 1⟩ ∧
    (⟨2, 2⟩ : AddrRR) ∈ smtp_addr_list smtpTwoHostLookupA
        (smtp_sort_mx [⟨1, "h1"⟩, ⟨2, "h2"⟩]) ∧
    (⟨2, 2⟩ : AddrRR).pref ≠ (1 : Nat) ∧
    (smtp_domain_addr_dnsok "example.test" [1] false smtpTwoHostLookupA
        [⟨1, "h1"⟩, ⟨2, "h2"⟩]).addrs = [] := by
  decide

/-- Claim C1, amended: `smtp_domain_addr` sorts the candidate addresses by
ascending MX preference, and when an address equals one of the local host's
own addresses at preference `P`, the list is truncated at the first entry
of preference `P`: exactly the entries with preference `≥ P` are removed
(the local host, its equally-preferred co-MX hosts, and every less-preferred
entry), leaving exactly the entries with preference strictly less than `P`;
when entries remain they are what `smtp_domain_addr` returns. -/
theorem smtp_domain_addr_truncates_at_self (name : String)
    (selfAddrs : List Nat) (bestmx : Bool) (lookupA : String → List Nat)
    (mxNames : List MxRR) :
    (smtp_addr_list lookupA (smtp_sort_mx mxNames)).Pairwise
      (fun a b => a.pref ≤ b.pref) ∧
    (∀ selfRR,
      smtp_find_self selfAddrs
        (smtp_addr_list lookupA (smtp_sort_mx mxNames)) = some selfRR →
      smtp_truncate_self (smtp_addr_list lookupA (smtp_sort_mx mxNames))
          selfRR.pref =
        (smtp_addr_list lookupA (smtp_sort_mx mxNames)).filter
          (fun r => decide (r.pref < selfRR.pref)) ∧
      (∀ tr, smtp_truncate_self (smtp_addr_list lookupA (smtp_sort_mx mxNames))
          selfRR.pref = tr → tr ≠ [] →
        (smtp_domain_addr_dnsok name selfAddrs bestmx lookupA mxNames).addrs =
          tr)) := by
  have hsorted := smtp_addr_list_sorted lookupA (smtp_sort_mx mxNames)
    (smtp_sort_mx_sorted mxNames)
  refine ⟨hsorted, ?_⟩
  intro selfRR hfind
  have hmem : selfRR ∈ smtp_addr_list lookupA (smtp_sort_mx mxNames) :=
    List.mem_of_find?_eq_some hfind
  refine ⟨smtp_truncate_eq_filter _ selfRR.pref hsorted ⟨selfRR, hmem, rfl⟩, ?_⟩
  intro tr htr hne
  cases haddr : smtp_addr_list lookupA (smtp_sort_mx mxNames) with
  | nil =>
    rw [haddr] at hmem
    cases hmem
  | cons first rest =>
    rw [haddr] at hfind htr
    exact smtp_domain_addr_dnsok_self_keep name selfAddrs bestmx lookupA mxNames
      selfRR tr first rest haddr hfind htr hne

/-- Claim C1, witness: with the local host at preference 2 behind a
preference-1 MX host, the amended truncation keeps exactly the
preference-1 entry and `smtp_domain_addr` returns it. -/
theorem smtp_domain_addr_truncates_at_self_witness :
    smtp_truncate_self
        (smtp_addr_list smtpTwoHostLookupA (smtp_sort_mx [⟨1, "h1"⟩, ⟨2, "h2"⟩]))
        (AddrRR.mk 2 2).pref =
      (smtp_addr_list smtpTwoHostLookupA
        (smtp_sort_mx [⟨1, "h1"⟩, ⟨2, "h2"⟩])).filter
          (fun r => decide (r.pref < (AddrRR.mk 2 2).pref)) ∧
    (smtp_domain_addr_dnsok "example.test" [2] false smtpTwoHostLookupA
        [⟨1, "h1"⟩, ⟨2, "h2"⟩]).addrs = [⟨1, 1⟩] := by
  have h := smtp_domain_addr_truncates_at_self "example.test" [2] false
    smtpTwoHostLookupA [⟨1, "h1"⟩, ⟨2, "h2"⟩]
  have h2 := h.2 ⟨2, 2⟩ (by decide)
  exact ⟨h2.1, h2.2 [⟨1, 1⟩] (by decide) (by decide)⟩

/-- Claim C5: when the local host is found among the resolved MX addresses
and truncation leaves nothing: if the best preference listed in DNS equals
the best preference that resolved, the outcome is the permanent failure
"mail for name loops back to myself" unless a best-MX transport is
configured, in which case the status is OK; if the best DNS preference
differs from the best resolved preference — it is then strictly better —
the outcome is the transient retry "unable to find primary relay". -/
theorem smtp_domain_addr_loopback_contract (name : String)
    (selfAddrs : List Nat) (bestmx : Bool) (lookupA : String → List Nat)
    (mxNames : List MxRR) (first : AddrRR) (rest : List AddrRR)
    (selfRR : AddrRR)
    (haddr : smtp_addr_list lookupA (smtp_sort_mx mxNames) = first :: rest)
    (hfind : smtp_find_self selfAddrs (first :: rest) = some selfRR)
    (htr : smtp_truncate_self (first :: rest) selfRR.pref = []) :
    ((smtp_sort_mx mxNames).head?.map MxRR.pref = some first.pref →
      (bestmx = true →
        smtp_domain_addr_dnsok name selfAddrs bestmx lookupA mxNames =
          ⟨[], some .ok, none, true⟩) ∧
      (bestmx = false →
        smtp_domain_addr_dnsok name selfAddrs bestmx lookupA mxNames =
          ⟨[], some .fail,
           some ("mail for " ++ name ++ " loops back to myself"), true⟩)) ∧
    ((smtp_sort_mx mxNames).head?.map MxRR.pref ≠ some first.pref →
      smtp_domain_addr_dnsok name selfAddrs bestmx lookupA mxNames =
        ⟨[], some .retry,
         some ("unable to find primary relay for " ++ name), true⟩ ∧
      ∃ bp, (smtp_sort_mx mxNames).head?.map MxRR.pref = some bp ∧
        bp < first.pref) := by
  have hout := smtp_domain_addr_dnsok_self_empty name selfAddrs bestmx lookupA
    mxNames selfRR first rest haddr hfind htr
  constructor
  · intro heq
    rw [hout, if_neg (not_ne_iff.mpr heq)]
    constructor
    · intro hb
      rw [if_pos hb]
    · intro hb
      rw [hb]
      rw [if_neg Bool.false_ne_true]
  · intro hne
    rw [hout, if_pos hne]
    refine ⟨rfl, ?_⟩
    obtain ⟨bp, hbp, hle⟩ := smtp_best_pref_le lookupA mxNames first rest haddr
    refine ⟨bp, hbp, ?_⟩
    rcases Nat.lt_or_ge bp first.pref with h | h
    · exact h
    · have : bp = first.pref := Nat.le_antisymm hle h
      rw [this] at hbp
      exact absurd hbp hne

/-- A-record resolution for a single MX host `h1` at address 1. -/
def smtpSelfLookupA : String → List Nat := fun h =>
  if h = "h1" then [1] else []

/-- Claim C5, witness: a domain whose only MX host is the local host at the
best preference fails permanently with the loops-back diagnostic when no
best-MX transport is configured. -/
theorem smtp_domain_addr_loopback_contract_witness :
    smtp_domain_addr_dnsok "example.test" [1] false smtpSelfLookupA
        [⟨1, "h1"⟩] =
      ⟨[], some .fail,
       some ("mail for " ++ "example.test" ++ " loops back to myself"),
       true⟩ := by
  have h := smtp_domain_addr_loopback_contract "example.test" [1] false
    smtpSelfLookupA [⟨1, "h1"⟩] ⟨1, 1⟩ [] ⟨1, 1⟩ (by decide) (by decide)
    (by decide)
  exact (h.1 (by decide)).2 rfl

/-- Helper: appending a fresh element keeps a list duplicate-free. -/
theorem nodup_append_singleton {α : Type} [DecidableEq α] {l : List α} {a : α}
    (h : l.Nodup) (ha : a ∉ l) : (l ++ [a]).Nodup := by
  rw [List.nodup_append]
  exact ⟨h, List.nodup_singleton a,
    fun x hx hx2 => ha ((List.mem_singleton.mp hx2) ▸ hx)⟩

/-- Helper: `qmgr_entry_create` preserves the entry-list invariant when the
new entry is fresh. -/
theorem qmgr_create_inv (s : QmgrState) (p idn : Nat) (hInv : EntryInv s)
    (h1 : (⟨idn, p⟩ : QEntry) ∉ s.todo) (h2 : (⟨idn, p⟩ : QEntry) ∉ s.busy)
    (h3 : ∀ q, (⟨idn, p⟩ : QEntry) ∉ s.plist q) :
    EntryInv (qmgr_entry_create s p idn).1 := by
  obtain ⟨htN, hbN, hdisj, hpN, hpeer, hiff⟩ := hInv
  refine ⟨?_, ?_, ?_, ?_, ?_, ?_⟩ <;> dsimp only [qmgr_entry_create]
  · exact nodup_append_singleton htN h1
  · exact hbN
  · intro f hf
    rcases List.mem_append.mp hf with h | h
    · exact hdisj f h
    · rw [List.mem_singleton.mp h]
      exact h2
  · intro q
    by_cases hq : q = p
    · subst hq
      rw [Function.update_same]
      exact nodup_append_singleton (hpN q) (h3 q)
    · rw [Function.update_noteq hq]
      exact hpN q
  · intro q f hf
    by_cases hq : q = p
    · subst hq
      rw [Function.update_same] at hf
      rcases List.mem_append.mp hf with h | h
      · exact hpeer q f h
      · rw [List.mem_singleton.mp h]
    · rw [Function.update_noteq hq] at hf
      exact hpeer q f hf
  · intro f
    by_cases hf : f = ⟨idn, p⟩
    · subst hf
      constructor
      · intro
        exact List.mem_append.mpr (Or.inr (List.mem_singleton.mpr rfl))
      · intro
        show (⟨idn, p⟩ : QEntry) ∈ Function.update s.plist p _ p
        rw [Function.update_same]
        exact List.mem_append.mpr (Or.inr (List.mem_singleton.mpr rfl))
    · have hrhs : f ∈ s.todo ++ [(⟨idn, p⟩ : QEntry)] ↔ f ∈ s.todo := by
        rw [List.mem_append, List.mem_singleton]
        exact or_iff_left hf
      rw [hrhs]
      by_cases hq : f.peer = p
      · rw [hq, Function.update_same, List.mem_append, List.mem_singleton,
          or_iff_left hf, ← hq]
        exact hiff f
      · rw [Function.update_noteq hq]
        exact hiff f

/-- Helper: `qmgr_entry_select` preserves the entry-list invariant. -/
theorem qmgr_select_inv (s : QmgrState) (p : Nat) (hInv : EntryInv s) :
    EntryInv (qmgr_entry_select s p).2 := by
  obtain ⟨htN, hbN, hdisj, hpN, hpeer, hiff⟩ := hInv
  cases hp : s.plist p with
  | nil =>
    have : (qmgr_entry_select s p).2 = s := by
      simp [qmgr_entry_select, hp]
    rw [this]
    exact ⟨htN, hbN, hdisj, hpN, hpeer, hiff⟩
  | cons e rest =>
    have hsel : (qmgr_entry_select s p).2 =
        { s with
            todo := s.todo.erase e
            todoRefcount := s.todoRefcount - 1
            busy := s.busy ++ [e]
            busyRefcount := s.busyRefcount + 1
            plist := Function.update s.plist p ((s.plist p).erase e)
            selected := Function.update s.selected (s.jobOf p)
              (s.selected (s.jobOf p) + 1) } := by
      simp [qmgr_entry_select, hp]
    have he_plist : e ∈ s.plist p := by
      rw [hp]
      exact List.mem_cons_self e rest
    have hpe : e.peer = p := hpeer p e he_plist
    have he_todo : e ∈ s.todo := (hiff e).mp (by rw [hpe]; exact he_plist)
    have he_nbusy : e ∉ s.busy := hdisj e he_todo
    rw [hsel]
    refine ⟨?_, ?_, ?_, ?_, ?_, ?_⟩ <;> dsimp only
    · exact htN.erase e
    · exact nodup_append_singleton hbN he_nbusy
    · intro f hf
      have hfe : f ≠ e ∧ f ∈ s.todo := (htN.mem_erase_iff).mp hf
      intro hfb
      rcases List.mem_append.mp hfb with h | h
      · exact hdisj f hfe.2 h
      · exact hfe.1 (List.mem_singleton.mp h)
    · intro q
      by_cases hq : q = p
      · subst hq
        rw [Function.update_same]
        exact (hpN q).erase e
      · rw [Function.update_noteq hq]
        exact hpN q
    · intro q f hf
      by_cases hq : q = p
      · subst hq
        rw [Function.update_same] at hf
        exact hpeer q f (List.mem_of_mem_erase hf)
      · rw [Function.update_noteq hq] at hf
        exact hpeer q f hf
    · intro f
      by_cases hf : f = e
      · subst hf
        constructor
        · intro hx
          rw [hpe, Function.update_same] at hx
          exact absurd rfl ((hpN p).mem_erase_iff.mp hx).1
        · intro hx
          exact absurd rfl (htN.mem_erase_iff.mp hx).1
      · rw [List.mem_erase_of_ne hf]
        by_cases hq : f.peer = p
        · rw [hq, Function.update_same, List.mem_erase_of_ne hf, ← hq]
          exact hiff f
        · rw [Function.update_noteq hq]
          exact hiff f

/-- Helper: `qmgr_entry_unselect` preserves the entry-list invariant when
applied to a busy entry. -/
theorem qmgr_unselect_inv (s : QmgrState) (e : QEntry) (hInv : EntryInv s)
    (he : e ∈ s.busy) : EntryInv (qmgr_entry_unselect s e) := by
  obtain ⟨htN, hbN, hdisj, hpN, hpeer, hiff⟩ := hInv
  have he_ntodo : e ∉ s.todo := fun h => hdisj e h he
  have he_nplist : e ∉ s.plist e.peer := fun h => he_ntodo ((hiff e).mp h)
  refine ⟨?_, ?_, ?_, ?_, ?_, ?_⟩ <;> dsimp only [qmgr_entry_unselect]
  · exact nodup_append_singleton htN he_ntodo
  · exact hbN.erase e
  · intro f hf
    rcases List.mem_append.mp hf with h | h
    · intro hfb
      exact hdisj f h (List.mem_of_mem_erase hfb)
    · rw [List.mem_singleton.mp h]
      intro hfb
      exact absurd rfl (hbN.mem_erase_iff.mp hfb).1
  · intro q
    by_cases hq : q = e.peer
    · subst hq
      rw [Function.update_same]
      exact nodup_append_singleton (hpN e.peer) he_nplist
    · rw [Function.update_noteq hq]
      exact hpN q
  · intro q f hf
    by_cases hq : q = e.peer
    · subst hq
      rw [Function.update_same] at hf
      rcases List.mem_append.mp hf with h | h
      · exact hpeer e.peer f h
      · rw [List.mem_singleton.mp h]
    · rw [Function.update_noteq hq] at hf
      exact hpeer q f hf
  · intro f
    by_cases hf : f = e
    · subst hf
      constructor
      · intro
        exact List.mem_append.mpr (Or.inr (List.mem_singleton.mpr rfl))
      · intro
        show f ∈ Function.update s.plist f.peer _ f.peer
        rw [Function.update_same]
        exact List.mem_append.mpr (Or.inr (List.mem_singleton.mpr rfl))
    · have hrhs : f ∈ s.todo ++ [e] ↔ f ∈ s.todo := by
        rw [List.mem_append, List.mem_singleton]
        exact or_iff_left hf
      rw [hrhs]
      by_cases hq : f.peer = e.peer
      · rw [hq, Function.update_same, List.mem_append, List.mem_singleton,
          or_iff_left hf, ← hq]
        exact hiff f
      · rw [Function.update_noteq hq]
        exact hiff f

/-- Helper: `qmgr_entry_done` on a busy entry preserves the entry-list
invariant. -/
theorem qmgr_done_busy_inv (s : QmgrState) (e : QEntry) (hInv : EntryInv s)
    (he : e ∈ s.busy) : EntryInv (qmgr_entry_done s e .busy) := by
  obtain ⟨htN, hbN, hdisj, hpN, hpeer, hiff⟩ := hInv
  refine ⟨?_, ?_, ?_, ?_, ?_, ?_⟩ <;> dsimp only [qmgr_entry_done]
  · exact htN
  · exact hbN.erase e
  · intro f hf hfb
    exact hdisj f hf (List.mem_of_mem_erase hfb)
  · exact hpN
  · exact hpeer
  · exact hiff

/-- Helper: `qmgr_entry_done` on a todo entry preserves the entry-list
invariant. -/
theorem qmgr_done_todo_inv (s : QmgrState) (e : QEntry) (hInv : EntryInv s)
    (he : e ∈ s.todo) : EntryInv (qmgr_entry_done s e .todo) := by
  obtain ⟨htN, hbN, hdisj, hpN, hpeer, hiff⟩ := hInv
  refine ⟨?_, ?_, ?_, ?_, ?_, ?_⟩ <;> dsimp only [qmgr_entry_done]
  · exact htN.erase e
  · exact hbN
  · intro f hf
    exact hdisj f (List.mem_of_mem_erase hf)
  · intro q
    by_cases hq : q = e.peer
    · subst hq
      rw [Function.update_same]
      exact (hpN e.peer).erase e
    · rw [Function.update_noteq hq]
      exact hpN q
  · intro q f hf
    by_cases hq : q = e.peer
    · subst hq
      rw [Function.update_same] at hf
      exact hpeer e.peer f (List.mem_of_mem_erase hf)
    · rw [Function.update_noteq hq] at hf
      exact hpeer q f hf
  · intro f
    by_cases hf : f = e
    · subst hf
      constructor
      · intro hx
        rw [Function.update_same] at hx
        exact absurd rfl ((hpN f.peer).mem_erase_iff.mp hx).1
      · intro hx
        exact absurd rfl (htN.mem_erase_iff.mp hx).1
    · rw [List.mem_erase_of_ne hf]
      by_cases hq : f.peer = e.peer
      · rw [hq, Function.update_same, List.mem_erase_of_ne hf, ← hq]
        exact hiff f
      · rw [Function.update_noteq hq]
        exact hiff f

/-- Claim C6: every queue-entry operation — `qmgr_entry_create`,
`qmgr_entry_select`, `qmgr_entry_unselect`, and `qmgr_entry_done` in its
busy and todo variants — preserves the invariant that each entry belongs to
exactly one of its queue's todo/busy lists and is linked into its peer's
entry list exactly when it is on the todo list. -/
theorem qmgr_entry_ops_preserve_inv (s : QmgrState) (hInv : EntryInv s) :
    (∀ p idn, (⟨idn, p⟩ : QEntry) ∉ s.todo → (⟨idn, p⟩ : QEntry) ∉ s.busy →
      (∀ q, (⟨idn, p⟩ : QEntry) ∉ s.plist q) →
      EntryInv (qmgr_entry_create s p idn).1) ∧
    (∀ p, EntryInv (qmgr_entry_select s p).2) ∧
    (∀ e, e ∈ s.busy → EntryInv (qmgr_entry_unselect s e)) ∧
    (∀ e, e ∈ s.busy → EntryInv (qmgr_entry_done s e QmgrWhich.busy)) ∧
    (∀ e, e ∈ s.todo → EntryInv (qmgr_entry_done s e QmgrWhich.todo)) :=
  ⟨fun p idn h1 h2 h3 => qmgr_create_inv s p idn hInv h1 h2 h3,
   fun p => qmgr_select_inv s p hInv,
   fun e he => qmgr_unselect_inv s e hInv he,
   fun e he => qmgr_done_busy_inv s e hInv he,
   fun e he => qmgr_done_todo_inv s e hInv he⟩

/-- A concrete queue-manager state: entry 1 awaiting selection (on `todo`
and on peer 0's list), entry 2 being delivered (on `busy`). -/
def qmgrExampleState : QmgrState where
  todo := [⟨1, 0⟩]
  busy := [⟨2, 0⟩]
  plist := fun q => if q = 0 then [⟨1, 0⟩] else []
  prc := fun q => if q = 0 then 2 else 0
  jobOf := fun _ => 0
  selected := fun _ => 1
  todoRefcount := 1
  busyRefcount := 1
  msgRefcount := 2

/-- Helper: the concrete example state satisfies the entry-list invariant. -/
theorem qmgrExampleState_inv : EntryInv qmgrExampleState := by
  refine ⟨by decide, by decide, ?_, ?_, ?_, ?_⟩
  · intro f hf
    have hf1 : f = ⟨1, 0⟩ := by simpa [qmgrExampleState] using hf
    rw [hf1]
    decide
  · intro q
    by_cases hq : q = 0
    · subst hq
      decide
    · simp [qmgrExampleState, hq]
  · intro q f hf
    by_cases hq : q = 0
    · subst hq
      have hf1 : f = ⟨1, 0⟩ := by simpa [qmgrExampleState] using hf
      rw [hf1]
    · simp [qmgrExampleState, hq] at hf
  · intro f
    constructor
    · intro hf
      by_cases hq : f.peer = 0
      · rw [hq] at hf
        have hf1 : f = ⟨1, 0⟩ := by simpa [qmgrExampleState] using hf
        rw [hf1]
        decide
      · simp [qmgrExampleState, hq] at hf
    · intro hf
      have hf1 : f = ⟨1, 0⟩ := by simpa [qmgrExampleState] using hf
      rw [hf1]
      decide

/-- Claim C6, witness: invariant preservation evaluated on the concrete
example state for all five operations. -/
theorem qmgr_entry_ops_preserve_inv_witness :
    EntryInv (qmgr_entry_create qmgrExampleState 0 3).1 ∧
    EntryInv (qmgr_entry_select qmgrExampleState 0).2 ∧
    EntryInv (qmgr_entry_unselect qmgrExampleState ⟨2, 0⟩) ∧
    EntryInv (qmgr_entry_done qmgrExampleState ⟨2, 0⟩ QmgrWhich.busy) ∧
    EntryInv (qmgr_entry_done qmgrExampleState ⟨1, 0⟩ QmgrWhich.todo) := by
  have h := qmgr_entry_ops_preserve_inv qmgrExampleState qmgrExampleState_inv
  refine ⟨h.1 0 3 (by decide) (by decide) ?_, h.2.1 0,
    h.2.2.1 ⟨2, 0⟩ (by decide), h.2.2.2.1 ⟨2, 0⟩ (by decide),
    h.2.2.2.2 ⟨1, 0⟩ (by decide)⟩
  intro q
  by_cases hq : q = 0
  · subst hq
    decide
  · simp [qmgrExampleState, hq]

/-- A concrete queue-manager state with two entries of peer 0 awaiting
selection, in order. -/
def qmgrPairState : QmgrState where
  todo := [⟨1, 0⟩, ⟨2, 0⟩]
  busy := []
  plist := fun q => if q = 0 then [⟨1, 0⟩, ⟨2, 0⟩] else []
  prc := fun q => if q = 0 then 2 else 0
  jobOf := fun _ => 0
  selected := fun _ => 0
  todoRefcount := 2
  busyRefcount := 0
  msgRefcount := 2

/-- Claim C7, counterexample: selecting the first entry of peer 0 and
immediately unselecting it re-appends that entry at the tail, so neither
the queue's `todo` list nor the peer's entry list regains its original
order — the select/unselect pair does not restore the exact state. -/
theorem qmgr_unselect_not_exact_inverse :
    (qmgr_entry_unselect (qmgr_entry_select qmgrPairState 0).2 ⟨1, 0⟩).todo ≠
      qmgrPairState.todo ∧
    (qmgr_entry_unselect (qmgr_entry_select qmgrPairState 0).2 ⟨1, 0⟩).plist 0 ≠
      qmgrPairState.plist 0 := by
  decide

/-- Claim C7, amended: when a select succeeds, `qmgr_entry_select` pulls the
first entry of the peer's list, moving it from `todo` to `busy` and
adjusting `todo_refcount`, `busy_refcount` and the job's
`selected_entries`; `qmgr_entry_unselect` performed immediately afterwards
restores the `busy` list exactly, restores all counters, and restores the
`todo` and peer-list memberships up to order — the entry is re-appended at
the tail, so those two lists are permutations of the originals (equal again
only when the entry was last). -/
theorem qmgr_select_unselect_restores (s : QmgrState) (p : Nat) (e : QEntry)
    (rest : List QEntry) (hInv : EntryInv s) (hp : s.plist p = e :: rest) :
    (qmgr_entry_select s p).1 = some e ∧
    (qmgr_entry_unselect (qmgr_entry_select s p).2 e).busy = s.busy ∧
    ((qmgr_entry_unselect (qmgr_entry_select s p).2 e).todo).Perm s.todo ∧
    (∀ f, f ∈ (qmgr_entry_unselect (qmgr_entry_select s p).2 e).todo ↔
      f ∈ s.todo) ∧
    ((qmgr_entry_unselect (qmgr_entry_select s p).2 e).plist p).Perm
      (s.plist p) ∧
    (∀ f, f ∈ (qmgr_entry_unselect (qmgr_entry_select s p).2 e).plist p ↔
      f ∈ s.plist p) ∧
    (∀ q, q ≠ p →
      (qmgr_entry_unselect (qmgr_entry_select s p).2 e).plist q = s.plist q) ∧
    (qmgr_entry_unselect (qmgr_entry_select s p).2 e).todoRefcount =
      s.todoRefcount ∧
    (qmgr_entry_unselect (qmgr_entry_select s p).2 e).busyRefcount =
      s.busyRefcount ∧
    (∀ j, (qmgr_entry_unselect (qmgr_entry_select s p).2 e).selected j =
      s.selected j) ∧
    (∀ q, (qmgr_entry_unselect (qmgr_entry_select s p).2 e).prc q = s.prc q) ∧
    (qmgr_entry_unselect (qmgr_entry_select s p).2 e).msgRefcount =
      s.msgRefcount := by
  obtain ⟨htN, hbN, hdisj, hpN, hpeer, hiff⟩ := hInv
  have he_plist : e ∈ s.plist p := by
    rw [hp]
    exact List.mem_cons_self e rest
  have hpe : e.peer = p := hpeer p e he_plist
  have he_todo : e ∈ s.todo := (hiff e).mp (by rw [hpe]; exact he_plist)
  have he_nbusy : e ∉ s.busy := hdisj e he_todo
  have hsel1 : (qmgr_entry_select s p).1 = some e := by
    simp [qmgr_entry_select, hp]
  have hsel : (qmgr_entry_select s p).2 =
      { s with
          todo := s.todo.erase e
          todoRefcount := s.todoRefcount - 1
          busy := s.busy ++ [e]
          busyRefcount := s.busyRefcount + 1
          plist := Function.update s.plist p ((s.plist p).erase e)
          selected := Function.update s.selected (s.jobOf p)
            (s.selected (s.jobOf p) + 1) } := by
    simp [qmgr_entry_select, hp]
  rw [hsel1, hsel]
  refine ⟨rfl, ?_, ?_, ?_, ?_, ?_, ?_, ?_, ?_, ?_, ?_, ?_⟩ <;>
    dsimp only [qmgr_entry_unselect]
  · rw [List.erase_append_right _ he_nbusy, List.erase_cons_head,
      List.append_nil]
  · exact (List.perm_append_singleton e (s.todo.erase e)).trans
      (List.perm_cons_erase he_todo).symm
  · intro f
    exact ((List.perm_append_singleton e (s.todo.erase e)).trans
      (List.perm_cons_erase he_todo).symm).mem_iff
  · rw [hpe, Function.update_same, Function.update_same, hp,
      List.erase_cons_head]
    exact (List.perm_append_singleton e rest).trans (List.Perm.refl (e :: rest))
  · intro f
    rw [hpe, Function.update_same, Function.update_same, hp,
      List.erase_cons_head]
    exact ((List.perm_append_singleton e rest).trans
      (List.Perm.refl (e :: rest))).mem_iff
  · intro q hq
    rw [hpe, Function.update_noteq hq, Function.update_noteq hq]
  · omega
  · omega
  · intro j
    rw [hpe]
    by_cases hj : j = s.jobOf p
    · subst hj
      rw [Function.update_same, Function.update_same]
      omega
    · rw [Function.update_noteq hj, Function.update_noteq hj]
  · intro q
    rfl

/-- Helper: the two-entry example state satisfies the entry-list
invariant. -/
theorem qmgrPairState_inv : EntryInv qmgrPairState := by
  refine ⟨by decide, by decide, ?_, ?_, ?_, ?_⟩
  · intro f hf
    simp [qmgrPairState]
  · intro q
    by_cases hq : q = 0
    · subst hq
      decide
    · simp [qmgrPairState, hq]
  · intro q f hf
    by_cases hq : q = 0
    · subst hq
      have hf1 : f = ⟨1, 0⟩ ∨ f = ⟨2, 0⟩ := by
        simpa [qmgrPairState] using hf
      rcases hf1 with h | h <;> rw [h]
    · simp [qmgrPairState, hq] at hf
  · intro f
    constructor
    · intro hf
      by_cases hq : f.peer = 0
      · rw [hq] at hf
        have hf1 : f = ⟨1, 0⟩ ∨ f = ⟨2, 0⟩ := by
          simpa [qmgrPairState] using hf
        rcases hf1 with h | h <;> (rw [h]; decide)
      · simp [qmgrPairState, hq] at hf
    · intro hf
      have hf1 : f = ⟨1, 0⟩ ∨ f = ⟨2, 0⟩ := by
        simpa [qmgrPairState] using hf
      rcases hf1 with h | h <;> (rw [h]; decide)

/-- Claim C7, witness: the amended roundtrip contract evaluated on the
two-entry example state. -/
theorem qmgr_select_unselect_restores_witness :
    (qmgr_entry_select qmgrPairState 0).1 = some ⟨1, 0⟩ ∧
    ((qmgr_entry_unselect (qmgr_entry_select qmgrPairState 0).2
      ⟨1, 0⟩).todo).Perm qmgrPairState.todo ∧
    (qmgr_entry_unselect (qmgr_entry_select qmgrPairState 0).2
      ⟨1, 0⟩).todoRefcount = qmgrPairState.todoRefcount := by
  obtain ⟨h1, -, h3, -, -, -, -, h8, -⟩ :=
    qmgr_select_unselect_restores qmgrPairState 0 ⟨1, 0⟩ [⟨2, 0⟩]
      qmgrPairState_inv (by decide)
  exact ⟨h1, h3, h8⟩
